import Mathlib

/-!
Verification of the myrient-download download-orchestration engine
(`src/myrientdownload/`), shallowly embedded in Lean 4.

The embedding follows the source files:
  * `myr_files.py`   — `get_files_list` (listing fetch and parse);
  * `myr_download.py` — `MyrDownloader`: statistics (`_report_stat`,
    `_reset_skipped_streak`), the single-file transfer (`_download_file`),
    directory resolution (`_get_download_dir`), the per-system batch
    (`_download_files`), and the run loop (`download_from_system_list`).

The network, the HTML page and the local filesystem are modelled explicitly:
an attempt's behaviour is an environment-chosen `TransferEvent`, the
filesystem is an association list from paths to byte lists, and every
HTTP request the code issues is recorded in a trace.  URL percent-encoding
(`urllib.parse.quote`) is abstracted: requests are recorded by their
unencoded URL, which does not affect any property proved here.
-/

/-! ## String primitives

Python's `in` (substring containment), `str.endswith`, and
`pathlib.PurePath.with_suffix` are modelled on character lists. -/

/-- Tests whether list `s` begins with pattern `p`. -/
def charsStartWith : List Char → List Char → Bool
  | [], _ => true
  | _ :: _, [] => false
  | a :: p, b :: s => a == b && charsStartWith p s

/-- Tests whether pattern `p` occurs contiguously in `s` (Python `p in s`). -/
def charsContain (p : List Char) : List Char → Bool
  | [] => charsStartWith p []
  | c :: s => charsStartWith p (c :: s) || charsContain p s

/-- Python `pat in s` on strings. -/
def strContains (s pat : String) : Bool :=
  charsContain pat.data s.data

/-- Tests whether `s` ends with `p`. -/
def charsEndWith (s p : List Char) : Bool :=
  charsStartWith p.reverse s.reverse

/-- Python `s.endswith(pat)`. -/
def strEndsWith (s pat : String) : Bool :=
  charsEndWith s.data pat.data

theorem charsStartWith_iff (p s : List Char) :
    charsStartWith p s = true ↔ ∃ t, s = p ++ t := by
  induction p generalizing s with
  | nil => simp [charsStartWith]
  | cons a p ih =>
    cases s with
    | nil => simp [charsStartWith]
    | cons b s =>
      simp only [charsStartWith, Bool.and_eq_true, beq_iff_eq, ih]
      constructor
      · rintro ⟨rfl, t, rfl⟩
        exact ⟨t, rfl⟩
      · rintro ⟨t, h⟩
        simp only [List.cons_append, List.cons.injEq] at h
        exact ⟨h.1.symm, t, h.2⟩

theorem charsEndWith_iff (s p : List Char) :
    charsEndWith s p = true ↔ ∃ t, s = t ++ p := by
  unfold charsEndWith
  rw [charsStartWith_iff]
  constructor
  · rintro ⟨t, h⟩
    refine ⟨t.reverse, ?_⟩
    have := congrArg List.reverse h
    simpa using this
  · rintro ⟨t, rfl⟩
    exact ⟨t.reverse, by simp⟩

theorem charsContain_iff (p s : List Char) :
    charsContain p s = true ↔ ∃ l r, s = l ++ p ++ r := by
  induction s with
  | nil =>
    simp only [charsContain, charsStartWith_iff]
    constructor
    · rintro ⟨t, h⟩
      exact ⟨[], t, by simpa using h⟩
    · rintro ⟨l, r, h⟩
      rw [eq_comm, List.append_eq_nil, List.append_eq_nil] at h
      exact ⟨[], by simp [h.1.1, h.1.2, h.2]⟩
  | cons c s ih =>
    simp only [charsContain, Bool.or_eq_true, charsStartWith_iff, ih]
    constructor
    · rintro (⟨t, h⟩ | ⟨l, r, rfl⟩)
      · exact ⟨[], t, by simpa using h⟩
      · exact ⟨c :: l, r, by simp⟩
    · rintro ⟨l, r, h⟩
      cases l with
      | nil => exact Or.inl ⟨r, by simpa using h⟩
      | cons x l =>
        simp only [List.cons_append, List.cons.injEq] at h
        exact Or.inr ⟨l, r, h.2⟩

/-- A string ending in `".part"` does not end in `".zip"`. -/
theorem endsPart_not_endsZip (s : String) (h : strEndsWith s ".part" = true) :
    strEndsWith s ".zip" = false := by
  unfold strEndsWith at *
  rw [charsEndWith_iff] at h
  obtain ⟨t, ht⟩ := h
  by_contra hz
  rw [Bool.not_eq_false, charsEndWith_iff] at hz
  obtain ⟨u, hu⟩ := hz
  rw [ht] at hu
  have h2 := congrArg List.reverse hu
  rw [List.reverse_append, List.reverse_append] at h2
  have hp : (".part".data.reverse : List Char) = ['t', 'r', 'a', 'p', '.'] := rfl
  have hz2 : (".zip".data.reverse : List Char) = ['p', 'i', 'z', '.'] := rfl
  rw [hp, hz2] at h2
  simp only [List.cons_append, List.cons.injEq] at h2
  exact absurd h2.1 (by decide)

theorem strData_append (a b : String) : (a ++ b).data = a.data ++ b.data := by
  cases a
  cases b
  rfl

theorem strEndsWith_append (x sfx : String) : strEndsWith (x ++ sfx) sfx = true := by
  unfold strEndsWith
  rw [charsEndWith_iff]
  exact ⟨x.data, strData_append x sfx⟩

/-! ## `pathlib` suffix handling

`PurePath.with_suffix` computes the name's current suffix — the part from
its last dot, provided that dot is neither the first nor the last character
of the name — and replaces it; a name with no suffix gets `sfx` appended. -/

/-- Split a character list at its last `'.'`: `some (pre, post)` with
`cs = pre ++ ('.' :: post)` and `post` dot-free; `none` when no dot. -/
def splitLastDot : List Char → Option (List Char × List Char)
  | [] => none
  | c :: cs =>
    match splitLastDot cs with
    | some (pre, post) => some (c :: pre, post)
    | none => if c == '.' then some ([], cs) else none

/-- Model of `name.with_suffix(sfx)` restricted to the file-name component
(the directory part is unchanged by `with_suffix`). -/
def pyWithSfx (name sfx : String) : String :=
  match splitLastDot name.data with
  | some (pre, post) =>
    if pre.isEmpty || post.isEmpty then name ++ sfx
    else { data := pre } ++ sfx
  | none => name ++ sfx

theorem splitLastDot_eq_none (m : List Char) (hm : '.' ∉ m) :
    splitLastDot m = none := by
  induction m with
  | nil => rfl
  | cons c m ih =>
    simp only [List.mem_cons, not_or] at hm
    have hc : (c == '.') = false := by
      simp only [beq_eq_false_iff_ne]
      exact fun hh => hm.1 hh.symm
    simp [splitLastDot, ih hm.2, hc]

theorem splitLastDot_append (l m : List Char) (hm : '.' ∉ m) :
    splitLastDot (l ++ '.' :: m) = some (l, m) := by
  induction l with
  | nil => simp [splitLastDot, splitLastDot_eq_none m hm]
  | cons c l ih => simp [splitLastDot, ih]

/-- Whatever the name, `with_suffix(sfx)` produces a name ending in `sfx`. -/
theorem pyWithSfx_endsWith (name sfx : String) :
    strEndsWith (pyWithSfx name sfx) sfx = true := by
  unfold pyWithSfx
  cases h : splitLastDot name.data with
  | none => exact strEndsWith_append name sfx
  | some pp =>
    obtain ⟨pre, post⟩ := pp
    by_cases hp : pre.isEmpty || post.isEmpty
    · simp only [hp]
      exact strEndsWith_append name sfx
    · simp only [hp]
      exact strEndsWith_append { data := pre } sfx

/-- On a name of the form `pre ++ ".zip"` with `pre` nonempty, the `".zip"`
suffix is replaced by the new one. -/
theorem pyWithSfx_zip (pre : List Char) (hpre : pre ≠ []) (sfx : String) :
    pyWithSfx { data := pre ++ ".zip".data } sfx = { data := pre } ++ sfx := by
  unfold pyWithSfx
  have hz : (".zip".data : List Char) = '.' :: ['z', 'i', 'p'] := rfl
  have hsplit : splitLastDot (pre ++ ".zip".data) = some (pre, ['z', 'i', 'p']) := by
    rw [hz]
    exact splitLastDot_append pre ['z', 'i', 'p'] (by decide)
  simp only [hsplit]
  have hpe : pre.isEmpty = false := by
    cases pre with
    | nil => exact absurd rfl hpre
    | cons a l => rfl
  simp [hpe]

/-! ## Paths and the local filesystem -/

/-- A local path: directory components plus a file name.  All paths the
downloader touches live inside one download root. -/
structure LocalPath where
  dir : List String
  name : String
deriving DecidableEq, Repr

/-- Model of `str(path)` — the POSIX rendering, used by
`str(output_file).endswith(".zip")`. -/
def pathStr (p : LocalPath) : String :=
  String.intercalate "/" (p.dir ++ [p.name])

/-- Model of `destination.with_suffix(".part")`: same directory, transformed
name (`myr_download.py` line 132). -/
def withPartSfx (p : LocalPath) : LocalPath :=
  { dir := p.dir, name := pyWithSfx p.name ".part" }

/-- The `fnmatch`-style `"*.part"` glob pattern of the stale-file sweep
(`myr_download.py` line 188): `*` matches any, possibly empty, sequence,
so a name matches iff it ends in `".part"`. -/
def matchesPartGlob (name : String) : Bool := strEndsWith name ".part"

/-- The local filesystem: an association list from paths to file contents
(byte lists).  Directory creation is a no-op in this model. -/
abbrev FS := List (LocalPath × List Nat)

def fsGet : FS → LocalPath → Option (List Nat)
  | [], _ => none
  | (q, c) :: fs, p => if q = p then some c else fsGet fs p

def fsSet : FS → LocalPath → List Nat → FS
  | [], p, c => [(p, c)]
  | (q, d) :: fs, p, c => if q = p then (p, c) :: fs else (q, d) :: fsSet fs p c

def fsDel : FS → LocalPath → FS
  | [], _ => []
  | (q, d) :: fs, p => if q = p then fsDel fs p else (q, d) :: fsDel fs p

def fsExists (fs : FS) (p : LocalPath) : Bool := (fsGet fs p).isSome

theorem fsGet_fsSet_same (fs : FS) (p : LocalPath) (c : List Nat) :
    fsGet (fsSet fs p c) p = some c := by
  induction fs with
  | nil => simp [fsSet, fsGet]
  | cons e fs ih =>
    obtain ⟨q, d⟩ := e
    by_cases h : q = p
    · simp [fsSet, fsGet, h]
    · simp [fsSet, fsGet, h, ih]

theorem fsGet_fsSet_ne (fs : FS) (p q : LocalPath) (c : List Nat) (h : q ≠ p) :
    fsGet (fsSet fs p c) q = fsGet fs q := by
  induction fs with
  | nil => simp [fsSet, fsGet, Ne.symm h]
  | cons e fs ih =>
    obtain ⟨r, d⟩ := e
    by_cases hr : r = p
    · subst hr
      simp [fsSet, fsGet, Ne.symm h]
    · simp only [fsSet, if_neg hr, fsGet]
      by_cases hq : r = q
      · simp [hq]
      · simp [hq, ih]

theorem fsGet_fsDel_same (fs : FS) (p : LocalPath) :
    fsGet (fsDel fs p) p = none := by
  induction fs with
  | nil => rfl
  | cons e fs ih =>
    obtain ⟨q, d⟩ := e
    by_cases h : q = p
    · simp [fsDel, h, ih]
    · simp [fsDel, fsGet, h, ih]

theorem fsGet_fsDel_ne (fs : FS) (p q : LocalPath) (h : q ≠ p) :
    fsGet (fsDel fs p) q = fsGet fs q := by
  induction fs with
  | nil => rfl
  | cons e fs ih =>
    obtain ⟨r, d⟩ := e
    by_cases hr : r = p
    · subst hr
      simp [fsDel, fsGet, Ne.symm h, ih]
    · simp only [fsDel, if_neg hr, fsGet]
      by_cases hq : r = q
      · simp [hq]
      · simp [hq, ih]

/-! ## Run statistics (`MyrDownloader.stats`, `_report_stat`,
`_reset_skipped_streak`) -/

structure Stats where
  skipped : Nat
  downloaded : Nat
  failed : Nat
  skipStreak : Nat
deriving DecidableEq, Repr

def Stats.init : Stats := ⟨0, 0, 0, 0⟩

/-- Model of `_report_stat`: increments the named counter when it is one of the three
known stats; `"skipped"` also bumps the skip streak; an unknown name is
logged and ignored (`myr_download.py` lines 52-60). -/
def reportStat (st : Stats) (s : String) : Stats :=
  if s = "skipped" then
    { st with skipped := st.skipped + 1, skipStreak := st.skipStreak + 1 }
  else if s = "downloaded" then { st with downloaded := st.downloaded + 1 }
  else if s = "failed" then { st with failed := st.failed + 1 }
  else st

/-- Model of `_reset_skipped_streak`: logs the streak when positive and zeroes it
(`myr_download.py` lines 62-66). -/
def resetSkipStreak (st : Stats) : Stats := { st with skipStreak := 0 }

/-- Total number of outcome-counter increments between two stats values. -/
def statIncrements (old new : Stats) : Nat :=
  (new.skipped - old.skipped) + (new.downloaded - old.downloaded)
    + (new.failed - old.failed)

/-! ## The single-file transfer (`_download_file`)

One call to `requests.get` plus the streaming loop is driven by an
environment-chosen event describing what the network did on that attempt. -/

/-- What the network does on one transfer attempt.

* `caughtAtRequest` — `requests.get` raised one of `ConnectTimeout`,
  `ReadTimeout`, `ConnectionError` before any byte was written.
* `caughtMidStream n` — the response streamed `n` bytes into the temp file
  and then one of those three exception classes was raised.
* `httpStatus code` — a response with this HTTP status arrived; for
  `code < 400` the whole body is then streamed and renamed. -/
inductive TransferEvent
  | caughtAtRequest
  | caughtMidStream (n : Nat)
  | httpStatus (code : Nat)
deriving DecidableEq, Repr

/-- Errors that escape the `try` of `_download_file` (and, for
`configError`, the `ValueError` of `_get_download_dir`): these propagate
and abort the run. -/
inductive Err
  | httpError (code : Nat)
  | configError
deriving DecidableEq, Repr

/-- Model of `response.raise_for_status()`: it raises `HTTPError` exactly for 4xx/5xx. -/
def raiseForStatus (code : Nat) : Bool := 400 ≤ code && code < 600

/-- The three exception classes listed in the `except` clause of
`_download_file` (lines 145-149) — `HTTPError` is not among them. -/
def isCaughtFailure : TransferEvent → Bool
  | .caughtAtRequest => true
  | .caughtMidStream _ => true
  | .httpStatus _ => false

/-- The attempt completed: a response whose status passed
`raise_for_status` and whose body streamed fully. -/
def attemptSucceeds : TransferEvent → Bool
  | .httpStatus code => !raiseForStatus code
  | _ => false

/-- Model of `_download_file(url, destination)` (`myr_download.py` lines 124-157):
streams to `destination.with_suffix(".part")`, renames on completion,
returns `False` after reporting `"failed"` when one of the three caught
exception classes is raised, and lets anything else — in particular the
`HTTPError` of `raise_for_status` on a 4xx/5xx response — propagate. -/
def downloadFileStep (ev : TransferEvent) (body : List Nat) (dest : LocalPath)
    (fs : FS) (st : Stats) : Except Err (Bool × FS × Stats) :=
  let temp := withPartSfx dest
  match ev with
  | .caughtAtRequest => .ok (false, fs, reportStat st "failed")
  | .caughtMidStream n => .ok (false, fsSet fs temp (body.take n), reportStat st "failed")
  | .httpStatus code =>
    if raiseForStatus code then .error (.httpError code)
    else
      let fsTemp := fsSet fs temp body
      .ok (true, fsSet (fsDel fsTemp temp) dest body, st)

/-- Network requests issued during a run, in order. -/
inductive NetReq
  | listGet (url : String)
  | fileGet (url : String)
deriving DecidableEq, Repr

/-- The retry loop of `_download_files` (lines 222-227): `for _ in range(3)`,
reporting `"downloaded"` and breaking on the first successful attempt.
The final `Nat` is the number of transfer attempts made; the trace records
one `fileGet` per attempt. -/
def retryLoop (events : Nat → TransferEvent) (body : List Nat) (url : String)
    (dest : LocalPath) : Nat → Nat → FS → Stats →
    List NetReq × Except Err (FS × Stats × Nat)
  | 0, i, fs, st => ([], .ok (fs, st, i))
  | n + 1, i, fs, st =>
    match downloadFileStep (events i) body dest fs st with
    | .error e => ([.fileGet url], .error e)
    | .ok (true, fs1, st1) =>
      ([.fileGet url], .ok (fs1, reportStat st1 "downloaded", i + 1))
    | .ok (false, fs1, st1) =>
      let rest := retryLoop events body url dest n (i + 1) fs1 st1
      (.fileGet url :: rest.1, rest.2)

/-! ## Filtering (`download_from_system_list` lines 93-101) -/

/-- The filter as implemented: an empty allow list is first replaced by the
sentinel `["."]` ("small hack to allow all files if nothing is specified"),
then a file is kept iff some allow term occurs in it and no disallow term
occurs in it. -/
def applyGameFilter (allowList disallowList : List String)
    (files : List String) : List String :=
  let allow := if allowList.isEmpty then ["."] else allowList
  files.filter fun f =>
    allow.any (fun t => strContains f t)
      && !(disallowList.any fun t => strContains f t)

/-- The filter as the specification words it: a candidate is kept iff the
allow list is empty or some allow term occurs in it, and no disallow term
occurs in it. -/
def specFilter (allowList disallowList : List String)
    (files : List String) : List String :=
  files.filter fun f =>
    (allowList.isEmpty || allowList.any fun t => strContains f t)
      && !(disallowList.any fun t => strContains f t)

/-! ## Listing fetch (`myr_files.py`, `get_files_list`) -/

/-- An anchor element of the listing table, with its optional `title`
attribute. -/
structure Anchor where
  title : Option String
deriving DecidableEq, Repr

/-- The parsed HTML page: the table with `id="list"`, when present, as its
list of anchors. -/
structure ListingPage where
  listTable : Option (List Anchor)
deriving DecidableEq, Repr

/-- What the listing `requests.get` produced: an exception (transport or
parse), or a response with a status code and a page. -/
inductive FetchResult
  | exn
  | resp (code : Nat) (page : ListingPage)

/-- The collection loop of `get_files_list`: `href = link.get("title");
if href and href.endswith(".zip"): files.append(href)`. -/
def collectZipTitles (anchors : List Anchor) : List String :=
  anchors.filterMap fun a =>
    match a.title with
    | some t => if !(t == "") && strEndsWith t ".zip" then some t else none
    | none => none

/-- Model of `get_files_list(url)` (`myr_files.py` lines 14-37): the whole body is
inside `try ... except Exception: return []`, so an exception anywhere —
transport, `raise_for_status` on a 4xx/5xx response, or parsing — yields
`[]`; otherwise the zip-titled anchors of the `id="list"` table, and `[]`
when that table is absent. -/
def get_files_list (r : FetchResult) : List String :=
  match r with
  | .exn => []
  | .resp code page =>
    if raiseForStatus code then []
    else
      match page.listTable with
      | some anchors => collectZipTitles anchors
      | none => []

/-- The fetch contract as the specification words it: the `title`
attributes of the listing-table anchors whose values end in `".zip"`. -/
def specZipTitles (anchors : List Anchor) : List String :=
  (anchors.filterMap Anchor.title).filter fun t => strEndsWith t ".zip"

/-! ## Configuration (`config.py`, as consumed by `myr_download.py`) -/

/-- One entry of `myrient_downloader`: per-catalog settings
(`MyrDLDownloaderConfig`). -/
structure Downloader where
  myrient_url : String
  myrient_path : String
  skip_existing : Bool
  verify_zips : Bool
  systems : List String
  game_allow_list : List String
  game_disallow_list : List String
deriving Repr

/-- The global configuration of `MyrDownloader` (`MyrDLConfig`): the
download root (as path components) and the directory-nesting flags. -/
structure GlobalCfg where
  myrient_downloader : List Downloader
  download_dir : List String
  create_and_use_system_directories : Bool
  create_and_use_database_directories : Bool
deriving Repr

/-- The environment a run executes against: listing results per system URL,
response body and per-attempt behaviour per file URL, and the zip-archive
validity oracle backing `zipfile.ZipFile`. -/
structure World where
  listing : String → List String
  fileBody : String → List Nat
  events : String → Nat → TransferEvent
  zipOk : List Nat → Bool

/-! ## Directory resolution and the `.part` sweep -/

/-- Model of `_get_download_dir` (`myr_download.py` lines 159-173): resolves the
destination directory from the nesting flags, raising `ValueError` when
database directories are requested without system directories; `mkdir` is
a no-op in this model. -/
def getDownloadDir (cfg : GlobalCfg) (system myrientPath : String) :
    Except Err (List String) :=
  let d :=
    if cfg.create_and_use_system_directories then
      if cfg.create_and_use_database_directories then
        cfg.download_dir ++ [myrientPath, system]
      else cfg.download_dir ++ [system]
    else cfg.download_dir
  if cfg.create_and_use_database_directories
      && !cfg.create_and_use_system_directories then
    .error .configError
  else .ok d

/-- The stale-file sweep (`myr_download.py` lines 187-190): every file of
the download directory matching the `"*.part"` glob is deleted. -/
def sweepPartFiles (fs : FS) (dir : List String) : FS :=
  fs.filter fun e => !(decide (e.1.dir = dir) && matchesPartGlob e.1.name)

/-! ## Per-file processing (`_download_files` body, lines 192-227) -/

/-- The zip-verification step (lines 196-202): when verification is on, the
file exists and its path string ends in `".zip"` but its content fails
central-directory parsing (`zipfile.BadZipFile`), the file is deleted. -/
def verifyStep (dl : Downloader) (zipOk : List Nat → Bool) (fs : FS)
    (output : LocalPath) : FS :=
  match fsGet fs output with
  | some c =>
    if dl.verify_zips && strEndsWith (pathStr output) ".zip" && !zipOk c then
      fsDel fs output
    else fs
  | none => fs

/-- One iteration of the per-file loop: verify, skip decision, and the
retry loop.  Returns the network requests issued for this file and either
the updated filesystem and stats or the propagating error. -/
def processOneFile (dl : Downloader) (dir : List String) (baseUrl name : String)
    (world : World) (fs : FS) (st : Stats) :
    List NetReq × Except Err (FS × Stats) :=
  let output : LocalPath := ⟨dir, name⟩
  let fs1 := verifyStep dl world.zipOk fs output
  if dl.skip_existing && fsExists fs1 output then
    ([], .ok (fs1, reportStat st "skipped"))
  else
    let st1 := resetSkipStreak st
    let url := baseUrl ++ name
    let r := retryLoop (world.events url) (world.fileBody url) url output 3 0 fs1 st1
    (r.1, r.2.map fun x => (x.1, x.2.1))

/-- The per-file loop over the filtered list, followed by the trailing
`_reset_skipped_streak` (line 229). -/
def processFiles (dl : Downloader) (dir : List String) (baseUrl : String)
    (world : World) : List String → FS → Stats →
    List NetReq × Except Err (FS × Stats)
  | [], fs, st => ([], .ok (fs, resetSkipStreak st))
  | name :: rest, fs, st =>
    let r := processOneFile dl dir baseUrl name world fs st
    match r.2 with
    | .error e => (r.1, .error e)
    | .ok (fs1, st1) =>
      let r2 := processFiles dl dir baseUrl world rest fs1 st1
      (r.1 ++ r2.1, r2.2)

/-- Model of `_download_files` (lines 175-229): resolve the directory, sweep stale
`.part` files, then process every filtered file. -/
def downloadFilesRun (cfg : GlobalCfg) (dl : Downloader) (system baseUrl : String)
    (files : List String) (world : World) (fs : FS) (st : Stats) :
    List NetReq × Except Err (FS × Stats) :=
  match getDownloadDir cfg system dl.myrient_path with
  | .error e => ([], .error e)
  | .ok dir => processFiles dl dir baseUrl world files (sweepPartFiles fs dir) st

/-! ## The run loop (`download_from_system_list`, lines 80-118) -/

/-- One system of one downloader entry: fetch the listing (a network
request), filter it, and when the filtered list is nonempty run the batch. -/
def runSystem (cfg : GlobalCfg) (dl : Downloader) (system : String)
    (world : World) (fs : FS) (st : Stats) :
    List NetReq × Except Err (FS × Stats) :=
  let systemUrl := dl.myrient_url ++ "/" ++ dl.myrient_path ++ "/" ++ system ++ "/"
  let files_list := world.listing systemUrl
  let filtered := applyGameFilter dl.game_allow_list dl.game_disallow_list files_list
  if filtered.isEmpty then ([.listGet systemUrl], .ok (fs, st))
  else
    let r := downloadFilesRun cfg dl system systemUrl filtered world fs st
    (.listGet systemUrl :: r.1, r.2)

/-- The inner loop over one downloader entry's systems. -/
def runSystemsForDl (cfg : GlobalCfg) (dl : Downloader) (world : World) :
    List String → FS → Stats → List NetReq × Except Err (FS × Stats)
  | [], fs, st => ([], .ok (fs, st))
  | system :: rest, fs, st =>
    let r := runSystem cfg dl system world fs st
    match r.2 with
    | .error e => (r.1, .error e)
    | .ok (fs1, st1) =>
      let r2 := runSystemsForDl cfg dl world rest fs1 st1
      (r.1 ++ r2.1, r2.2)

/-- The outer loop over `config.myrient_downloader`. -/
def runDls (cfg : GlobalCfg) (world : World) :
    List Downloader → FS → Stats → List NetReq × Except Err (FS × Stats)
  | [], fs, st => ([], .ok (fs, st))
  | dl :: rest, fs, st =>
    let r := runSystemsForDl cfg dl world dl.systems fs st
    match r.2 with
    | .error e => (r.1, .error e)
    | .ok (fs1, st1) =>
      let r2 := runDls cfg world rest fs1 st1
      (r.1 ++ r2.1, r2.2)

/-- Model of `download_from_system_list`: the whole run, from fresh statistics.
Returns the ordered network-request trace and either the final filesystem
and statistics or the error that aborted the run. -/
def downloadFromSystemList (cfg : GlobalCfg) (world : World) (fs : FS) :
    List NetReq × Except Err (FS × Stats) :=
  runDls cfg world cfg.myrient_downloader fs Stats.init

/-! ## Helper lemmas -/

theorem reportStat_fail (st : Stats) :
    reportStat st "failed" = { st with failed := st.failed + 1 } := rfl

theorem reportStat_dl (st : Stats) :
    reportStat st "downloaded" = { st with downloaded := st.downloaded + 1 } := rfl

theorem reportStat_skip (st : Stats) :
    reportStat st "skipped" =
      { st with skipped := st.skipped + 1, skipStreak := st.skipStreak + 1 } := rfl

/-- A caught failure class makes `_download_file` report `"failed"` and
return `False`. -/
theorem downloadFileStep_of_caught (ev : TransferEvent)
    (h : isCaughtFailure ev = true) (body : List Nat) (dest : LocalPath)
    (fs : FS) (st : Stats) :
    ∃ fs1, downloadFileStep ev body dest fs st =
      .ok (false, fs1, reportStat st "failed") := by
  cases ev with
  | caughtAtRequest => exact ⟨fs, rfl⟩
  | caughtMidStream n => exact ⟨fsSet fs (withPartSfx dest) (body.take n), rfl⟩
  | httpStatus code => simp [isCaughtFailure] at h

/-- A successful attempt streams the body to the temp file and renames it. -/
theorem downloadFileStep_of_succeeds (ev : TransferEvent)
    (h : attemptSucceeds ev = true) (body : List Nat) (dest : LocalPath)
    (fs : FS) (st : Stats) :
    downloadFileStep ev body dest fs st =
      .ok (true,
        fsSet (fsDel (fsSet fs (withPartSfx dest) body) (withPartSfx dest)) dest body,
        st) := by
  cases ev with
  | caughtAtRequest => simp [attemptSucceeds] at h
  | caughtMidStream n => simp [attemptSucceeds] at h
  | httpStatus code =>
    simp only [attemptSucceeds, Bool.not_eq_eq_eq_not, Bool.not_true] at h
    simp [downloadFileStep, h]

/-- When every attempt fails with a caught class, the loop runs all `n`
attempts, reporting `"failed"` each time and `"downloaded"` never. -/
theorem retryLoop_all_caught (events : Nat → TransferEvent) (body : List Nat)
    (url : String) (dest : LocalPath) (n : Nat) :
    ∀ (i : Nat) (fs : FS) (st : Stats),
    (∀ k, k < n → isCaughtFailure (events (i + k)) = true) →
    ∃ fs', retryLoop events body url dest n i fs st =
      (List.replicate n (.fileGet url),
       .ok (fs', { st with failed := st.failed + n }, i + n)) := by
  induction n with
  | zero =>
    intro i fs st _
    exact ⟨fs, by simp [retryLoop]⟩
  | succ n ih =>
    intro i fs st h
    obtain ⟨fs1, hstep⟩ :=
      downloadFileStep_of_caught (events i)
        (by simpa using h 0 (Nat.succ_pos n)) body dest fs st
    obtain ⟨fs', hrest⟩ := ih (i + 1) fs1 (reportStat st "failed")
      (fun k hk => by
        have := h (k + 1) (Nat.succ_lt_succ hk)
        simpa [Nat.add_assoc, Nat.add_comm 1 k] using this)
    refine ⟨fs', ?_⟩
    rw [reportStat_fail] at hrest
    have e1 : st.failed + 1 + n = st.failed + (n + 1) := by omega
    have e2 : i + 1 + n = i + (n + 1) := by omega
    rw [e1, e2] at hrest
    simp only [retryLoop, hstep, reportStat_fail, hrest, List.replicate_succ]

/-- When the first `k` attempts fail with caught classes and attempt `k`
succeeds (`k < n`), the loop stops after `k + 1` attempts with one
`"downloaded"` report and `k` `"failed"` reports. -/
theorem retryLoop_first_success (events : Nat → TransferEvent) (body : List Nat)
    (url : String) (dest : LocalPath) (k : Nat) :
    ∀ (n i : Nat) (fs : FS) (st : Stats), k < n →
    (∀ j, j < k → isCaughtFailure (events (i + j)) = true) →
    attemptSucceeds (events (i + k)) = true →
    ∃ fs', retryLoop events body url dest n i fs st =
      (List.replicate (k + 1) (.fileGet url),
       .ok (fs',
         { st with downloaded := st.downloaded + 1, failed := st.failed + k },
         i + k + 1)) := by
  induction k with
  | zero =>
    intro n i fs st hk _ hsucc
    obtain ⟨n, rfl⟩ : ∃ m, n = m + 1 := ⟨n - 1, by omega⟩
    rw [Nat.add_zero] at hsucc
    have hstep := downloadFileStep_of_succeeds (events i) hsucc body dest fs st
    refine ⟨fsSet (fsDel (fsSet fs (withPartSfx dest) body) (withPartSfx dest)) dest body, ?_⟩
    simp only [retryLoop, hstep, reportStat_dl, Nat.add_zero, List.replicate_succ,
      List.replicate_zero]
  | succ k ih =>
    intro n i fs st hk hfail hsucc
    obtain ⟨n, rfl⟩ : ∃ m, n = m + 1 := ⟨n - 1, by omega⟩
    obtain ⟨fs1, hstep⟩ :=
      downloadFileStep_of_caught (events i)
        (by simpa using hfail 0 (Nat.succ_pos k)) body dest fs st
    obtain ⟨fs', hrest⟩ := ih n (i + 1) fs1 (reportStat st "failed")
      (by omega)
      (fun j hj => by
        have := hfail (j + 1) (Nat.succ_lt_succ hj)
        simpa [Nat.add_assoc, Nat.add_comm 1 j] using this)
      (by
        have : i + 1 + k = i + (k + 1) := by omega
        rw [this]
        exact hsucc)
    refine ⟨fs', ?_⟩
    rw [reportStat_fail] at hrest
    have e1 : st.failed + 1 + k = st.failed + (k + 1) := by omega
    have e2 : i + 1 + k + 1 = i + (k + 1) + 1 := by omega
    rw [e1, e2] at hrest
    simp only [retryLoop, hstep, reportStat_fail, hrest, List.replicate_succ]

/-! ## Claim C5 — retry bound -/

/-- Claim C5: For every target file whose transfer fails on every attempt with
a caught failure class, the transfer is attempted exactly 3 times — never
more — after which the target's outcome is recorded as Failed; conversely,
the first successful attempt records Downloaded and no further attempts are
made for that file (the loop uses `k + 1` of its 3 attempt slots when
attempt `k` is the first success). -/
theorem retry_bound_c5 (events : Nat → TransferEvent) (body : List Nat)
    (url : String) (dest : LocalPath) (fs : FS) (st : Stats) :
    ((∀ k, k < 3 → isCaughtFailure (events k) = true) →
      ∃ fs', retryLoop events body url dest 3 0 fs st =
        (List.replicate 3 (.fileGet url),
         .ok (fs', { st with failed := st.failed + 3 }, 3)))
    ∧ (∀ k, k < 3 →
        (∀ j, j < k → isCaughtFailure (events j) = true) →
        attemptSucceeds (events k) = true →
        ∃ fs', retryLoop events body url dest 3 0 fs st =
          (List.replicate (k + 1) (.fileGet url),
           .ok (fs',
             { st with downloaded := st.downloaded + 1, failed := st.failed + k },
             k + 1))) := by
  constructor
  · intro h
    exact retryLoop_all_caught events body url dest 3 0 fs st
      (fun k hk => by rw [Nat.zero_add]; exact h k hk)
  · intro k hk hfail hsucc
    obtain ⟨fs', hh⟩ := retryLoop_first_success events body url dest k 3 0 fs st hk
      (fun j hj => by rw [Nat.zero_add]; exact hfail j hj)
      (by rw [Nat.zero_add]; exact hsucc)
    rw [Nat.zero_add] at hh
    exact ⟨fs', hh⟩

/-- Witness for C5 at a concrete input: a script whose every attempt raises
a caught class uses all 3 attempt slots and ends with `failed` three higher. -/
theorem retry_bound_c5_witness :
    (∀ k, k < 3 → isCaughtFailure ((fun _ => TransferEvent.caughtAtRequest) k) = true)
    ∧ ∃ fs', retryLoop (fun _ => TransferEvent.caughtAtRequest) [7] "u"
        ⟨["d"], "a.zip"⟩ 3 0 [] Stats.init =
        (List.replicate 3 (.fileGet "u"),
         .ok (fs', { Stats.init with failed := Stats.init.failed + 3 }, 3)) :=
  ⟨fun _ _ => rfl,
   (retry_bound_c5 (fun _ => TransferEvent.caughtAtRequest) [7] "u"
     ⟨["d"], "a.zip"⟩ [] Stats.init).1 (fun _ _ => rfl)⟩

/-! ## Claim C1 — one outcome per target (corrected) -/

/-- Attempt script used by the C1 counterexample: two caught failures, then
a 200 response. -/
def exEventsC1 : Nat → TransferEvent :=
  fun k => if k < 2 then .caughtAtRequest else .httpStatus 200

def exDl : Downloader :=
  { myrient_url := "https://myrient.erista.me/files", myrient_path := "No-Intro",
    skip_existing := true, verify_zips := true, systems := ["SystemA"],
    game_allow_list := ["(USA)"], game_disallow_list := ["Demo"] }

def exWorldC1 : World :=
  { listing := fun _ => ["GameA (USA).zip"], fileBody := fun _ => [7, 7],
    events := fun _ => exEventsC1, zipOk := fun _ => true }

/-- Claim C1 is false as stated: a target whose transfer fails twice and then
succeeds receives three stat increments (`failed` twice, `downloaded` once),
not exactly one. -/
theorem outcome_once_c1_counterexample :
    (processOneFile exDl ["output", "SystemA"] "base/" "GameA (USA).zip"
        exWorldC1 [] Stats.init).2 =
      .ok ([(⟨["output", "SystemA"], "GameA (USA).zip"⟩, [7, 7])],
        { skipped := 0, downloaded := 1, failed := 2, skipStreak := 0 })
    ∧ statIncrements Stats.init
        { skipped := 0, downloaded := 1, failed := 2, skipStreak := 0 } = 3 :=
  ⟨rfl, rfl⟩

/-- Claim C1, amended: Per filtered target the counters receive exactly one
increment only when the target is skipped, or succeeds on its first
attempt; in general `"failed"` is incremented once per failed caught
attempt and `"downloaded"` at most once, so a target contributes 1
increment when skipped, `k + 1` when the first success is attempt `k`,
and 3 when every attempt fails. -/
theorem outcome_once_c1 (dl : Downloader) (dir : List String)
    (baseUrl name : String) (world : World) (fs : FS) (st : Stats) :
    (dl.skip_existing = true →
      fsExists (verifyStep dl world.zipOk fs ⟨dir, name⟩) ⟨dir, name⟩ = true →
      (processOneFile dl dir baseUrl name world fs st).2 =
        .ok (verifyStep dl world.zipOk fs ⟨dir, name⟩, reportStat st "skipped")
      ∧ statIncrements st (reportStat st "skipped") = 1)
    ∧ ((dl.skip_existing
          && fsExists (verifyStep dl world.zipOk fs ⟨dir, name⟩) ⟨dir, name⟩) = false →
      (∀ k, k < 3 → isCaughtFailure (world.events (baseUrl ++ name) k) = true) →
      ∃ fs', (processOneFile dl dir baseUrl name world fs st).2 =
          .ok (fs', { resetSkipStreak st with failed := st.failed + 3 })
        ∧ statIncrements st { resetSkipStreak st with failed := st.failed + 3 } = 3)
    ∧ (∀ k, k < 3 →
      (dl.skip_existing
          && fsExists (verifyStep dl world.zipOk fs ⟨dir, name⟩) ⟨dir, name⟩) = false →
      (∀ j, j < k → isCaughtFailure (world.events (baseUrl ++ name) j) = true) →
      attemptSucceeds (world.events (baseUrl ++ name) k) = true →
      ∃ fs', (processOneFile dl dir baseUrl name world fs st).2 =
          .ok (fs', { resetSkipStreak st with
            downloaded := st.downloaded + 1, failed := st.failed + k })
        ∧ statIncrements st { resetSkipStreak st with
            downloaded := st.downloaded + 1, failed := st.failed + k } = k + 1) := by
  refine ⟨?_, ?_, ?_⟩
  · intro hskip hex
    constructor
    · simp [processOneFile, hskip, hex]
    · simp only [statIncrements, reportStat_skip]
      omega
  · intro hcond h
    obtain ⟨fs', hloop⟩ := retryLoop_all_caught (world.events (baseUrl ++ name))
      (world.fileBody (baseUrl ++ name)) (baseUrl ++ name) ⟨dir, name⟩ 3 0
      (verifyStep dl world.zipOk fs ⟨dir, name⟩) (resetSkipStreak st)
      (fun k hk => by rw [Nat.zero_add]; exact h k hk)
    refine ⟨fs', ?_, ?_⟩
    · simp only [processOneFile, hcond, Bool.false_eq_true, if_false, hloop,
        Except.map]
      rfl
    · simp only [statIncrements, resetSkipStreak]
      omega
  · intro k hk hcond hfail hsucc
    obtain ⟨fs', hloop⟩ := retryLoop_first_success (world.events (baseUrl ++ name))
      (world.fileBody (baseUrl ++ name)) (baseUrl ++ name) ⟨dir, name⟩ k 3 0
      (verifyStep dl world.zipOk fs ⟨dir, name⟩) (resetSkipStreak st) hk
      (fun j hj => by rw [Nat.zero_add]; exact hfail j hj)
      (by rw [Nat.zero_add]; exact hsucc)
    refine ⟨fs', ?_, ?_⟩
    · simp only [processOneFile, hcond, Bool.false_eq_true, if_false, hloop,
        Except.map]
      rfl
    · simp only [statIncrements, resetSkipStreak]
      omega

/-- Witness for the amended C1: the skip branch on a concrete input gives
exactly one increment. -/
theorem outcome_once_c1_witness :
    exDl.skip_existing = true
    ∧ fsExists (verifyStep exDl exWorldC1.zipOk
        [(⟨["d"], "a.zip"⟩, [7])] ⟨["d"], "a.zip"⟩) ⟨["d"], "a.zip"⟩ = true
    ∧ ((processOneFile exDl ["d"] "base/" "a.zip" exWorldC1
          [(⟨["d"], "a.zip"⟩, [7])] Stats.init).2 =
        .ok (verifyStep exDl exWorldC1.zipOk
          [(⟨["d"], "a.zip"⟩, [7])] ⟨["d"], "a.zip"⟩, reportStat Stats.init "skipped")
      ∧ statIncrements Stats.init (reportStat Stats.init "skipped") = 1) :=
  ⟨rfl, rfl,
   (outcome_once_c1 exDl ["d"] "base/" "a.zip" exWorldC1
     [(⟨["d"], "a.zip"⟩, [7])] Stats.init).1 rfl rfl⟩

/-! ## Claim C2 — non-2xx handling (corrected) -/

def exCfg : GlobalCfg :=
  { myrient_downloader := [exDl], download_dir := ["output"],
    create_and_use_system_directories := true,
    create_and_use_database_directories := false }

def exWorld404 : World :=
  { exWorldC1 with events := fun _ _ => .httpStatus 404 }

def exWorldFail : World :=
  { exWorldC1 with events := fun _ _ => .caughtAtRequest }

/-- Claim C2 is false as stated: a 404 response makes `raise_for_status`
raise `HTTPError`, which is not among the three caught exception classes;
the first attempt's error aborts the entire run — no retry, no `Failed`
outcome, no further files or systems. -/
theorem nonsuccess_fatal_c2_counterexample :
    downloadFromSystemList exCfg exWorld404 [] =
      ([.listGet "https://myrient.erista.me/files/No-Intro/SystemA/",
        .fileGet "https://myrient.erista.me/files/No-Intro/SystemA/GameA (USA).zip"],
       .error (.httpError 404)) := rfl

/-- Claim C2, amended: A non-2xx (4xx/5xx) status raises an uncaught
`HTTPError` that is fatal to the run; only connect timeout, read timeout
and connection error are recovered by the retry policy — such a file
becomes `Failed` after all attempts are exhausted (unless skipped) and the
orchestration loop continues with the next file. -/
theorem nonsuccess_fatal_c2 :
    (∀ code body dest fs st, raiseForStatus code = true →
      downloadFileStep (.httpStatus code) body dest fs st =
        .error (.httpError code))
    ∧ (∀ (dl : Downloader) (dir : List String) (baseUrl name : String)
        (rest : List String) (world : World) (fs : FS) (st : Stats),
        (∀ k, k < 3 → isCaughtFailure (world.events (baseUrl ++ name) k) = true) →
        ∃ tr fs1 st1,
          processOneFile dl dir baseUrl name world fs st = (tr, .ok (fs1, st1))
          ∧ (st1 = reportStat st "skipped" ∨ st1.failed = st.failed + 3)
          ∧ processFiles dl dir baseUrl world (name :: rest) fs st =
              (tr ++ (processFiles dl dir baseUrl world rest fs1 st1).1,
               (processFiles dl dir baseUrl world rest fs1 st1).2)) := by
  constructor
  · intro code body dest fs st h
    simp [downloadFileStep, h]
  · intro dl dir baseUrl name rest world fs st h
    by_cases hc : (dl.skip_existing
        && fsExists (verifyStep dl world.zipOk fs ⟨dir, name⟩) ⟨dir, name⟩) = true
    · have hp : processOneFile dl dir baseUrl name world fs st =
          ([], .ok (verifyStep dl world.zipOk fs ⟨dir, name⟩,
            reportStat st "skipped")) := by
        simp [processOneFile, hc]
      refine ⟨[], _, _, hp, Or.inl rfl, ?_⟩
      simp [processFiles, hp]
    · rw [Bool.not_eq_true] at hc
      obtain ⟨fs', hloop⟩ := retryLoop_all_caught (world.events (baseUrl ++ name))
        (world.fileBody (baseUrl ++ name)) (baseUrl ++ name) ⟨dir, name⟩ 3 0
        (verifyStep dl world.zipOk fs ⟨dir, name⟩) (resetSkipStreak st)
        (fun k hk => by rw [Nat.zero_add]; exact h k hk)
      have hp : processOneFile dl dir baseUrl name world fs st =
          (List.replicate 3 (.fileGet (baseUrl ++ name)),
           .ok (fs', { resetSkipStreak st with failed := st.failed + 3 })) := by
        simp only [processOneFile, hc, Bool.false_eq_true, if_false, hloop,
          Except.map]
        rfl
      refine ⟨List.replicate 3 (.fileGet (baseUrl ++ name)), fs',
        { resetSkipStreak st with failed := st.failed + 3 }, hp, Or.inr rfl, ?_⟩
      simp [processFiles, hp]

/-- Witness for the amended C2 at concrete inputs: a 404 propagates as a
fatal error, while an always-timing-out file ends as `Failed` and the loop
moves on. -/
theorem nonsuccess_fatal_c2_witness :
    raiseForStatus 404 = true
    ∧ downloadFileStep (.httpStatus 404) [7] ⟨["d"], "a.zip"⟩ [] Stats.init =
        .error (.httpError 404)
    ∧ (∀ k, k < 3 →
        isCaughtFailure (exWorldFail.events ("base/" ++ "a.zip") k) = true)
    ∧ ∃ tr fs1 st1,
        processOneFile exDl ["d"] "base/" "a.zip" exWorldFail [] Stats.init =
          (tr, .ok (fs1, st1))
        ∧ (st1 = reportStat Stats.init "skipped"
            ∨ st1.failed = Stats.init.failed + 3)
        ∧ processFiles exDl ["d"] "base/" exWorldFail ["a.zip"] [] Stats.init =
            (tr ++ (processFiles exDl ["d"] "base/" exWorldFail [] fs1 st1).1,
             (processFiles exDl ["d"] "base/" exWorldFail [] fs1 st1).2) :=
  ⟨rfl,
   nonsuccess_fatal_c2.1 404 [7] ⟨["d"], "a.zip"⟩ [] Stats.init rfl,
   fun _ _ => rfl,
   nonsuccess_fatal_c2.2 exDl ["d"] "base/" "a.zip" [] exWorldFail [] Stats.init
     (fun _ _ => rfl)⟩

/-! ## Claim C8 — skip-existing issues no network request -/

/-- Claim C8: For every target file, if skip-existing is enabled and the
destination exists after the verification step, the outcome recorded is
`Skipped` (one `"skipped"` increment) and no network request of any kind
is issued for that file — the request trace for it is empty. -/
theorem skip_no_network_c8 (dl : Downloader) (dir : List String)
    (baseUrl name : String) (world : World) (fs : FS) (st : Stats)
    (hskip : dl.skip_existing = true)
    (hex : fsExists (verifyStep dl world.zipOk fs ⟨dir, name⟩) ⟨dir, name⟩ = true) :
    processOneFile dl dir baseUrl name world fs st =
      ([], .ok (verifyStep dl world.zipOk fs ⟨dir, name⟩,
        reportStat st "skipped")) := by
  simp [processOneFile, hskip, hex]

/-- Witness for C8: a present, valid `GameB (USA).zip` with skip-existing
on yields `Skipped` with an empty request trace. -/
theorem skip_no_network_c8_witness :
    exDl.skip_existing = true
    ∧ fsExists (verifyStep exDl exWorldC1.zipOk
        [(⟨["out"], "GameB (USA).zip"⟩, [9])] ⟨["out"], "GameB (USA).zip"⟩)
        ⟨["out"], "GameB (USA).zip"⟩ = true
    ∧ processOneFile exDl ["out"] "base/" "GameB (USA).zip" exWorldC1
        [(⟨["out"], "GameB (USA).zip"⟩, [9])] Stats.init =
      ([], .ok (verifyStep exDl exWorldC1.zipOk
          [(⟨["out"], "GameB (USA).zip"⟩, [9])] ⟨["out"], "GameB (USA).zip"⟩,
        reportStat Stats.init "skipped")) :=
  ⟨rfl, rfl,
   skip_no_network_c8 exDl ["out"] "base/" "GameB (USA).zip" exWorldC1
     [(⟨["out"], "GameB (USA).zip"⟩, [9])] Stats.init rfl rfl⟩

/-! ## Claim C9 — corrupt archive is deleted, then downloaded -/

def exWorldC9 : World :=
  { listing := fun _ => ["GameC (USA).zip"], fileBody := fun _ => [7, 7],
    events := fun _ _ => .httpStatus 200, zipOk := fun _ => false }


/-- The retry loop's first step, exposed as an equation (`3 = 2 + 1`). -/
theorem retryLoop_three (events : Nat → TransferEvent) (body : List Nat)
    (url : String) (dest : LocalPath) (fs : FS) (st : Stats) :
    retryLoop events body url dest 3 0 fs st =
      (match downloadFileStep (events 0) body dest fs st with
       | .error e => ([.fileGet url], .error e)
       | .ok (true, fs1, st1) =>
         ([.fileGet url], .ok (fs1, reportStat st1 "downloaded", 1))
       | .ok (false, fs1, st1) =>
         let rest := retryLoop events body url dest 2 1 fs1 st1
         (.fileGet url :: rest.1, rest.2)) := rfl

/-- Claim C9: For every target whose name ends in `".zip"` (as a path
string), when verification is enabled and the existing local file fails
archive validation, the file is deleted before the skip decision and the
target is then downloaded; assuming the transfer succeeds (first attempt),
the recorded outcome is Downloaded — `skipped` is untouched — and the
destination ends up holding the freshly downloaded body. -/
theorem corrupt_redownload_c9 (dl : Downloader) (dir : List String)
    (baseUrl name : String) (world : World) (fs : FS) (st : Stats) (c : List Nat)
    (hv : dl.verify_zips = true)
    (hz : strEndsWith (pathStr ⟨dir, name⟩) ".zip" = true)
    (hc : fsGet fs ⟨dir, name⟩ = some c)
    (hbad : world.zipOk c = false)
    (hsucc : attemptSucceeds (world.events (baseUrl ++ name) 0) = true) :
    verifyStep dl world.zipOk fs ⟨dir, name⟩ = fsDel fs ⟨dir, name⟩
    ∧ ∃ fs', processOneFile dl dir baseUrl name world fs st =
        ([.fileGet (baseUrl ++ name)],
         .ok (fs', { resetSkipStreak st with downloaded := st.downloaded + 1 }))
      ∧ fsGet fs' ⟨dir, name⟩ = some (world.fileBody (baseUrl ++ name)) := by
  have hver : verifyStep dl world.zipOk fs ⟨dir, name⟩ = fsDel fs ⟨dir, name⟩ := by
    simp [verifyStep, hc, hv, hz, hbad]
  have hne : fsExists (fsDel fs ⟨dir, name⟩) ⟨dir, name⟩ = false := by
    simp [fsExists, fsGet_fsDel_same]
  have hstep := downloadFileStep_of_succeeds (world.events (baseUrl ++ name) 0)
    hsucc (world.fileBody (baseUrl ++ name)) ⟨dir, name⟩
    (fsDel fs ⟨dir, name⟩) (resetSkipStreak st)
  refine ⟨hver, fsSet (fsDel (fsSet (fsDel fs ⟨dir, name⟩) (withPartSfx ⟨dir, name⟩)
      (world.fileBody (baseUrl ++ name))) (withPartSfx ⟨dir, name⟩)) ⟨dir, name⟩
      (world.fileBody (baseUrl ++ name)), ?_, ?_⟩
  · simp only [processOneFile, hver, hne, Bool.and_false, Bool.false_eq_true,
      if_false, retryLoop_three, hstep, Except.map]
    rfl
  · exact fsGet_fsSet_same _ _ _

/-- Witness for C9: a present but invalid `GameC (USA).zip` is deleted and
re-downloaded on a 200 response. -/
theorem corrupt_redownload_c9_witness :
    exDl.verify_zips = true
    ∧ strEndsWith (pathStr ⟨["out"], "GameC (USA).zip"⟩) ".zip" = true
    ∧ fsGet [(⟨["out"], "GameC (USA).zip"⟩, [0])] ⟨["out"], "GameC (USA).zip"⟩ =
        some [0]
    ∧ exWorldC9.zipOk [0] = false
    ∧ attemptSucceeds (exWorldC9.events ("base/" ++ "GameC (USA).zip") 0) = true
    ∧ (verifyStep exDl exWorldC9.zipOk [(⟨["out"], "GameC (USA).zip"⟩, [0])]
          ⟨["out"], "GameC (USA).zip"⟩ =
        fsDel [(⟨["out"], "GameC (USA).zip"⟩, [0])] ⟨["out"], "GameC (USA).zip"⟩
      ∧ ∃ fs', processOneFile exDl ["out"] "base/" "GameC (USA).zip" exWorldC9
            [(⟨["out"], "GameC (USA).zip"⟩, [0])] Stats.init =
          ([.fileGet ("base/" ++ "GameC (USA).zip")],
           .ok (fs', { resetSkipStreak Stats.init with
             downloaded := Stats.init.downloaded + 1 }))
        ∧ fsGet fs' ⟨["out"], "GameC (USA).zip"⟩ =
            some (exWorldC9.fileBody ("base/" ++ "GameC (USA).zip"))) :=
  ⟨rfl, rfl, rfl, rfl, rfl,
   corrupt_redownload_c9 exDl ["out"] "base/" "GameC (USA).zip" exWorldC9
     [(⟨["out"], "GameC (USA).zip"⟩, [0])] Stats.init [0] rfl rfl rfl rfl rfl⟩

/-! ## Claim C6 — transfer writes only the temp sibling, renames on success -/

/-- The atomicity contract of one `_download_file` invocation: the temp
path is a sibling (same directory) with a `".part"` name; no path other
than the temp path and the destination is touched; a caught failure leaves
the destination binding unchanged; and the destination binding changes
only on a successful, fully streamed attempt, after which it holds the
whole body and the temp file is gone (renamed away). -/
def TransferAtomic (ev : TransferEvent) (body : List Nat) (dest : LocalPath)
    (fs : FS) (st : Stats) : Prop :=
  (withPartSfx dest).dir = dest.dir
  ∧ strEndsWith (withPartSfx dest).name ".part" = true
  ∧ match downloadFileStep ev body dest fs st with
    | .ok (b, fs2, _) =>
        (∀ p, p ≠ withPartSfx dest → p ≠ dest → fsGet fs2 p = fsGet fs p)
        ∧ (b = false → fsGet fs2 dest = fsGet fs dest)
        ∧ (b = true → attemptSucceeds ev = true
            ∧ fsGet fs2 dest = some body ∧ fsGet fs2 (withPartSfx dest) = none)
    | .error _ => True

/-- Claim C6: For every invocation of the single-file transfer on a
`".zip"`-named destination, bytes are written only to the temporary
sibling path; the final destination name comes into existence only via the
rename performed after the entire response body has been streamed; and on
any caught failure the destination under its final name is neither created
nor modified — it is never a truncated file under its final name. -/
theorem transfer_atomic_c6 (ev : TransferEvent) (body : List Nat)
    (dest : LocalPath) (fs : FS) (st : Stats)
    (hzip : strEndsWith dest.name ".zip" = true) :
    TransferAtomic ev body dest fs st := by
  have hPart : strEndsWith (withPartSfx dest).name ".part" = true :=
    pyWithSfx_endsWith dest.name ".part"
  have hNe : withPartSfx dest ≠ dest := by
    intro he
    have hn := congrArg LocalPath.name he
    rw [hn] at hPart
    have hfalse := endsPart_not_endsZip dest.name hPart
    rw [hzip] at hfalse
    exact absurd hfalse (by decide)
  refine ⟨rfl, hPart, ?_⟩
  cases ev with
  | caughtAtRequest =>
    simp [downloadFileStep]
  | caughtMidStream n =>
    simp only [downloadFileStep]
    refine ⟨?_, ?_, fun h => Bool.noConfusion h⟩
    · exact fun p hpt _ => fsGet_fsSet_ne fs (withPartSfx dest) p _ hpt
    · exact fun _ => fsGet_fsSet_ne fs (withPartSfx dest) dest _ (Ne.symm hNe)
  | httpStatus code =>
    by_cases hrs : raiseForStatus code = true
    · simp only [downloadFileStep, hrs, if_true]
    · rw [Bool.not_eq_true] at hrs
      simp only [downloadFileStep, hrs, Bool.false_eq_true, if_false]
      refine ⟨?_, fun h => Bool.noConfusion h, fun _ => ⟨?_, ?_, ?_⟩⟩
      · intro p hpt hpd
        rw [fsGet_fsSet_ne _ dest p _ hpd, fsGet_fsDel_ne _ (withPartSfx dest) p hpt,
          fsGet_fsSet_ne _ (withPartSfx dest) p _ hpt]
      · simp [attemptSucceeds, hrs]
      · exact fsGet_fsSet_same _ _ _
      · rw [fsGet_fsSet_ne _ dest (withPartSfx dest) _ hNe, fsGet_fsDel_same]

/-- Witness for C6: a 200 response transfer onto `"a.zip"`. -/
theorem transfer_atomic_c6_witness :
    strEndsWith (LocalPath.mk ["d"] "a.zip").name ".zip" = true
    ∧ TransferAtomic (.httpStatus 200) [1, 2] ⟨["d"], "a.zip"⟩ [] Stats.init :=
  ⟨rfl,
   transfer_atomic_c6 (.httpStatus 200) [1, 2] ⟨["d"], "a.zip"⟩ [] Stats.init rfl⟩

/-! ## Claim C7 — listing fetch never raises (corrected) -/

theorem strExt (a b : String) (h : a.data = b.data) : a = b := by
  cases a
  cases b
  exact congrArg String.mk h

theorem endsZip_ne_empty (t : String) (h : strEndsWith t ".zip" = true) :
    t ≠ "" := by
  intro he
  subst he
  exact absurd h (by decide)

/-- The collection loop equals the specification's description of it: the
`title` attributes ending in `".zip"` (the emptiness test is redundant,
since `""` does not end in `".zip"`). -/
theorem collectZipTitles_eq_spec (anchors : List Anchor) :
    collectZipTitles anchors = specZipTitles anchors := by
  induction anchors with
  | nil => rfl
  | cons a rest ih =>
    cases ht : a.title with
    | none =>
      simpa [collectZipTitles, specZipTitles, List.filterMap_cons, ht] using ih
    | some t =>
      by_cases he : strEndsWith t ".zip" = true
      · have hne := endsZip_ne_empty t he
        simpa [collectZipTitles, specZipTitles, List.filterMap_cons, ht, he, hne]
          using ih
      · rw [Bool.not_eq_true] at he
        simpa [collectZipTitles, specZipTitles, List.filterMap_cons, ht, he]
          using ih

/-- Claim C7 is false as stated: a response with the non-2xx status 300
passes `raise_for_status` — which raises only for 4xx/5xx — so the page is
parsed and its zip titles are returned, not converted into an empty list. -/
theorem fetch_total_c7_counterexample :
    (¬(200 ≤ 300 ∧ 300 < 300))
    ∧ get_files_list (.resp 300 ⟨some [⟨some "x.zip"⟩]⟩) = ["x.zip"] :=
  ⟨by omega, rfl⟩

/-- Claim C7, amended: The listing fetch never raises — it is total in the
fetch result; any exception, including the `HTTPError` that
`raise_for_status` raises for 4xx/5xx statuses, is caught at the fetch
boundary and converted into an empty list; a response whose status passes
`raise_for_status` (in particular any 2xx) returns the `title` attributes
of the anchors of the `id="list"` table whose values end in `".zip"`, and
`[]` when that table is absent. -/
theorem fetch_total_c7 :
    get_files_list .exn = []
    ∧ (∀ code page, 400 ≤ code → code < 600 →
        get_files_list (.resp code page) = [])
    ∧ (∀ code page anchors, raiseForStatus code = false →
        page.listTable = some anchors →
        get_files_list (.resp code page) = specZipTitles anchors)
    ∧ (∀ code page, raiseForStatus code = false → page.listTable = none →
        get_files_list (.resp code page) = []) := by
  refine ⟨rfl, ?_, ?_, ?_⟩
  · intro code page h4 h6
    have hrs : raiseForStatus code = true := by
      simp only [raiseForStatus, Bool.and_eq_true, decide_eq_true_eq]
      omega
    simp [get_files_list, hrs]
  · intro code page anchors hrs ht
    simp [get_files_list, hrs, ht, collectZipTitles_eq_spec]
  · intro code page hrs ht
    simp [get_files_list, hrs, ht]

/-- Witness for the amended C7: a 404 yields `[]`; a 200 yields exactly the
zip-titled anchors. -/
theorem fetch_total_c7_witness :
    ((400 ≤ 404) ∧ (404 < 600)
      ∧ get_files_list (.resp 404 ⟨some [⟨some "x.zip"⟩]⟩) = [])
    ∧ (raiseForStatus 200 = false
      ∧ (ListingPage.mk (some [⟨some "x.zip"⟩, ⟨none⟩, ⟨some "readme.txt"⟩])).listTable
          = some [⟨some "x.zip"⟩, ⟨none⟩, ⟨some "readme.txt"⟩]
      ∧ get_files_list
          (.resp 200 ⟨some [⟨some "x.zip"⟩, ⟨none⟩, ⟨some "readme.txt"⟩]⟩) =
          specZipTitles [⟨some "x.zip"⟩, ⟨none⟩, ⟨some "readme.txt"⟩]) :=
  ⟨⟨by omega, by omega, fetch_total_c7.2.1 404 _ (by omega) (by omega)⟩,
   ⟨rfl, rfl, fetch_total_c7.2.2.1 200 _ _ rfl rfl⟩⟩

/-! ## Claim C3 — fail-fast on nesting misconfiguration (corrected) -/

def cfgC3 : GlobalCfg :=
  { myrient_downloader := [exDl], download_dir := ["output"],
    create_and_use_system_directories := false,
    create_and_use_database_directories := true }

/-- Claim C3 is false as stated: with database directories enabled and system
directories disabled, the run still fetches the first system's remote
listing — network activity — before `_get_download_dir` raises the
configuration `ValueError`; the trace of the aborted run contains that
fetch. -/
theorem failfast_c3_counterexample :
    downloadFromSystemList cfgC3 exWorldC1 [] =
      ([.listGet "https://myrient.erista.me/files/No-Intro/SystemA/"],
       .error .configError) := rfl

/-- Claim C3, amended: Under the misconfiguration, the configuration error
is raised while resolving the download directory of a system whose
filtered listing is nonempty — after that system's listing has been
fetched, so not before network activity; a system whose filtered listing
is empty raises nothing and the run proceeds. -/
theorem failfast_c3 (cfg : GlobalCfg) (dl : Downloader) (system : String)
    (world : World) (fs : FS) (st : Stats)
    (hdb : cfg.create_and_use_database_directories = true)
    (hsys : cfg.create_and_use_system_directories = false) :
    ((applyGameFilter dl.game_allow_list dl.game_disallow_list
        (world.listing (dl.myrient_url ++ "/" ++ dl.myrient_path ++ "/"
          ++ system ++ "/"))).isEmpty = false →
      runSystem cfg dl system world fs st =
        ([.listGet (dl.myrient_url ++ "/" ++ dl.myrient_path ++ "/"
          ++ system ++ "/")], .error .configError))
    ∧ ((applyGameFilter dl.game_allow_list dl.game_disallow_list
        (world.listing (dl.myrient_url ++ "/" ++ dl.myrient_path ++ "/"
          ++ system ++ "/"))).isEmpty = true →
      runSystem cfg dl system world fs st =
        ([.listGet (dl.myrient_url ++ "/" ++ dl.myrient_path ++ "/"
          ++ system ++ "/")], .ok (fs, st))) := by
  constructor
  · intro hne
    simp [runSystem, hne, downloadFilesRun, getDownloadDir, hdb, hsys]
  · intro he
    simp [runSystem, he]

/-- Witness for the amended C3 at the counterexample's configuration. -/
theorem failfast_c3_witness :
    cfgC3.create_and_use_database_directories = true
    ∧ cfgC3.create_and_use_system_directories = false
    ∧ (applyGameFilter exDl.game_allow_list exDl.game_disallow_list
        (exWorldC1.listing (exDl.myrient_url ++ "/" ++ exDl.myrient_path ++ "/"
          ++ "SystemA" ++ "/"))).isEmpty = false
    ∧ runSystem cfgC3 exDl "SystemA" exWorldC1 [] Stats.init =
        ([.listGet (exDl.myrient_url ++ "/" ++ exDl.myrient_path ++ "/"
          ++ "SystemA" ++ "/")], .error .configError) :=
  ⟨rfl, rfl, rfl,
   (failfast_c3 cfgC3 exDl "SystemA" exWorldC1 [] Stats.init rfl rfl).1 rfl⟩

/-! ## Claim C4 — filter semantics (corrected) -/

/-- Claim C4 is false as stated: with an empty allow list the code filters by
the sentinel term `"."`, so a candidate containing no dot is dropped, while
the claim keeps every candidate no disallow term matches. -/
theorem filter_semantics_c4_counterexample :
    applyGameFilter [] [] ["README"] = []
    ∧ specFilter [] [] ["README"] = ["README"] := ⟨rfl, rfl⟩

/-- Claim C4, amended: The filter is order-preserving and, for a nonempty
allow list, keeps a candidate iff some allow term is a case-sensitive
substring and no disallow term is (disallow takes precedence); an empty
allow list behaves as the singleton allow list `["."]`, so a candidate is
then kept iff it contains a dot and matches no disallow term — which
coincides with "keep all" on every name containing `"."`, in particular
every `".zip"` name; the reference scenario filters to exactly
`["GameA (USA).zip"]`. -/
theorem filter_semantics_c4 :
    (∀ allow dis files, allow.isEmpty = false →
      applyGameFilter allow dis files = specFilter allow dis files)
    ∧ (∀ dis files, applyGameFilter [] dis files = specFilter ["."] dis files)
    ∧ (∀ allow dis files, (applyGameFilter allow dis files).Sublist files)
    ∧ applyGameFilter ["(USA)"] ["Demo"]
        ["GameA (USA).zip", "GameB (Demo) (USA).zip", "GameC (Japan).zip"] =
      ["GameA (USA).zip"] := by
  refine ⟨?_, ?_, ?_, rfl⟩
  · intro allow dis files he
    simp [applyGameFilter, specFilter, he]
  · intro dis files
    simp [applyGameFilter, specFilter]
  · intro allow dis files
    simp only [applyGameFilter]
    exact List.filter_sublist _

/-- Witness for the amended C4: a nonempty allow list agrees with the
specification's predicate on a concrete listing. -/
theorem filter_semantics_c4_witness :
    (["(USA)"] : List String).isEmpty = false
    ∧ applyGameFilter ["(USA)"] ["Demo"] ["GameA (USA).zip", "README"] =
        specFilter ["(USA)"] ["Demo"] ["GameA (USA).zip", "README"] :=
  ⟨rfl, filter_semantics_c4.1 ["(USA)"] ["Demo"] ["GameA (USA).zip", "README"] rfl⟩

/-! ## Claim C10 — the `.part` temp name (corrected) -/

/-- What holds of the temp name derived from a `".zip"`-ending remote
`name`: the suffix is replaced (not appended) whenever the name is not the
bare `".zip"`; the temp name always ends in `".part"` and never in
`".zip"`, and is matched and deleted by the `"*.part"` sweep. -/
def PartNameSpec (name : String) : Prop :=
  (name ≠ ".zip" →
    pyWithSfx name ".part" =
      { data := name.data.take (name.data.length - 4) ++ ".part".data })
  ∧ strEndsWith (pyWithSfx name ".part") ".part" = true
  ∧ strEndsWith (pyWithSfx name ".part") ".zip" = false
  ∧ matchesPartGlob (pyWithSfx name ".part") = true
  ∧ ∀ (dir : List String) (c : List Nat) (rest : FS),
      sweepPartFiles ((⟨dir, pyWithSfx name ".part"⟩, c) :: rest) dir =
        sweepPartFiles rest dir

/-- Claim C10 is false as stated: for the degenerate remote name `".zip"`,
`pathlib` sees no suffix (the only dot is the leading character), so
`with_suffix(".part")` appends rather than replaces, giving `".zip.part"`
instead of the claimed `".part"`. -/
theorem part_path_c10_counterexample :
    strEndsWith ".zip" ".zip" = true
    ∧ pyWithSfx ".zip" ".part" = ".zip.part"
    ∧ pyWithSfx ".zip" ".part" ≠ ".part" :=
  ⟨by decide, by decide, by decide⟩

/-- Claim C10, amended: For every remote name ending in `".zip"` with at
least one character before that suffix, the temp name is the destination
name with the final `".zip"` replaced by `".part"` (for the bare `".zip"`
it is appended); in every case the temp name ends in `".part"` and never
in `".zip"`, so an in-progress or interrupted download can never be
skipped as existing or verified as an archive, and it is always matched by
the `"*.part"` sweep at the start of a system's batch. -/
theorem part_path_c10 (name : String) (h : strEndsWith name ".zip" = true) :
    PartNameSpec name := by
  have hPart := pyWithSfx_endsWith name ".part"
  refine ⟨?_, hPart, endsPart_not_endsZip _ hPart, hPart, ?_⟩
  · intro hne
    unfold strEndsWith at h
    rw [charsEndWith_iff] at h
    obtain ⟨pre, hdata⟩ := h
    have hpre : pre ≠ [] := by
      intro hp
      subst hp
      exact hne (strExt name ".zip" (by simpa using hdata))
    have hname : name = { data := pre ++ ".zip".data } := strExt _ _ hdata
    rw [hname, pyWithSfx_zip pre hpre ".part"]
    apply strExt
    show pre ++ ".part".data =
      ((pre ++ ".zip".data).take ((pre ++ ".zip".data).length - 4)) ++ ".part".data
    congr 1
    rw [List.length_append]
    have h4 : (".zip".data : List Char).length = 4 := rfl
    rw [h4]
    have h5 : pre.length + 4 - 4 = pre.length := by omega
    rw [h5]
    exact (List.take_left pre ".zip".data).symm
  · intro dir c rest
    simp [sweepPartFiles, matchesPartGlob, hPart]

/-- Witness for the amended C10 at the reference name. -/
theorem part_path_c10_witness :
    strEndsWith "Game (USA).zip" ".zip" = true
    ∧ PartNameSpec "Game (USA).zip" :=
  ⟨by decide, part_path_c10 "Game (USA).zip" (by decide)⟩
